import Mathlib

/-!
Verification of SharePointTable.js (src/includes/sharepoint-table.js).

A shallow embedding of the data pipeline of the `SharePointTable` class:
normalization (`_normalizeData`), header derivation (`_generateHeaders`),
sorting (the comparator passed to `rows.sort` inside `render`), cell
formatting (`_formatCellValue`) and the `render` state machine, together
with theorems settling the specification claims.

Modeling decisions:
* JS values are modeled by the inductive `JSValue`; JS numbers are modeled
  as integers (`Int`).  All inputs exercised by concrete theorems use
  integral numbers, where double and integer arithmetic agree.
* JS objects are association lists in property-insertion order (JS objects
  cannot hold duplicate keys; theorems quantifying over raw field lists
  carry a `Nodup` hypothesis where that matters).
* The DOM is a mapping from element id to element content; `console.error`
  output is collected in a log list; the in-place mutation performed by
  `rows.sort` on the array embedded in `this.data` is made explicit by
  returning the post-render value of `this.data`.
* `Array.prototype.sort` (stable since ES2019) is modeled by the stable
  `List.mergeSort` on the comparator from the source.
* Locale-dependent rendering (`toLocaleString`, `toLocaleDateString`,
  `toLocaleTimeString`) is kept abstract as a `LocaleFns` parameter.
-/

namespace SPTable

/-- JS runtime values as they occur in this library's data path.
`undefined` is JS `undefined` (e.g. the result of reading an absent property). -/
inductive JSValue where
  | null
  | undefined
  | bool (b : Bool)
  | num (n : Int)
  | str (s : String)
  | arr (elems : List JSValue)
  | obj (fields : List (String × JSValue))

mutual

/-- Decidable equality on `JSValue` (the nested inductive prevents automatic
derivation). -/
def decEqV : (a b : JSValue) → Decidable (a = b)
  | .null, .null => .isTrue rfl
  | .undefined, .undefined => .isTrue rfl
  | .bool a, .bool b =>
    if h : a = b then .isTrue (by rw [h]) else .isFalse (by simp [h])
  | .num a, .num b =>
    if h : a = b then .isTrue (by rw [h]) else .isFalse (by simp [h])
  | .str a, .str b =>
    if h : a = b then .isTrue (by rw [h]) else .isFalse (by simp [h])
  | .arr as, .arr bs =>
    match decEqL as bs with
    | .isTrue h => .isTrue (by rw [h])
    | .isFalse h => .isFalse (by simp [h])
  | .obj fs, .obj gs =>
    match decEqF fs gs with
    | .isTrue h => .isTrue (by rw [h])
    | .isFalse h => .isFalse (by simp [h])
  | .null, .undefined => .isFalse (by simp)
  | .null, .bool _ => .isFalse (by simp)
  | .null, .num _ => .isFalse (by simp)
  | .null, .str _ => .isFalse (by simp)
  | .null, .arr _ => .isFalse (by simp)
  | .null, .obj _ => .isFalse (by simp)
  | .undefined, .null => .isFalse (by simp)
  | .undefined, .bool _ => .isFalse (by simp)
  | .undefined, .num _ => .isFalse (by simp)
  | .undefined, .str _ => .isFalse (by simp)
  | .undefined, .arr _ => .isFalse (by simp)
  | .undefined, .obj _ => .isFalse (by simp)
  | .bool _, .null => .isFalse (by simp)
  | .bool _, .undefined => .isFalse (by simp)
  | .bool _, .num _ => .isFalse (by simp)
  | .bool _, .str _ => .isFalse (by simp)
  | .bool _, .arr _ => .isFalse (by simp)
  | .bool _, .obj _ => .isFalse (by simp)
  | .num _, .null => .isFalse (by simp)
  | .num _, .undefined => .isFalse (by simp)
  | .num _, .bool _ => .isFalse (by simp)
  | .num _, .str _ => .isFalse (by simp)
  | .num _, .arr _ => .isFalse (by simp)
  | .num _, .obj _ => .isFalse (by simp)
  | .str _, .null => .isFalse (by simp)
  | .str _, .undefined => .isFalse (by simp)
  | .str _, .bool _ => .isFalse (by simp)
  | .str _, .num _ => .isFalse (by simp)
  | .str _, .arr _ => .isFalse (by simp)
  | .str _, .obj _ => .isFalse (by simp)
  | .arr _, .null => .isFalse (by simp)
  | .arr _, .undefined => .isFalse (by simp)
  | .arr _, .bool _ => .isFalse (by simp)
  | .arr _, .num _ => .isFalse (by simp)
  | .arr _, .str _ => .isFalse (by simp)
  | .arr _, .obj _ => .isFalse (by simp)
  | .obj _, .null => .isFalse (by simp)
  | .obj _, .undefined => .isFalse (by simp)
  | .obj _, .bool _ => .isFalse (by simp)
  | .obj _, .num _ => .isFalse (by simp)
  | .obj _, .str _ => .isFalse (by simp)
  | .obj _, .arr _ => .isFalse (by simp)

def decEqL : (a b : List JSValue) → Decidable (a = b)
  | [], [] => .isTrue rfl
  | a :: as, b :: bs =>
    match decEqV a b, decEqL as bs with
    | .isTrue h1, .isTrue h2 => .isTrue (by rw [h1, h2])
    | .isFalse h1, _ => .isFalse (by simp [h1])
    | _, .isFalse h2 => .isFalse (by simp [h2])
  | [], _ :: _ => .isFalse (by simp)
  | _ :: _, [] => .isFalse (by simp)

def decEqF : (a b : List (String × JSValue)) → Decidable (a = b)
  | [], [] => .isTrue rfl
  | (k, v) :: as, (k', v') :: bs =>
    if hk : k = k' then
      match decEqV v v', decEqF as bs with
      | .isTrue h1, .isTrue h2 => .isTrue (by rw [hk, h1, h2])
      | .isFalse h1, _ => .isFalse (by simp [h1])
      | _, .isFalse h2 => .isFalse (by simp [h2])
    else .isFalse (by simp [hk])
  | [], _ :: _ => .isFalse (by simp)
  | _ :: _, [] => .isFalse (by simp)

end

instance : DecidableEq JSValue := decEqV

namespace JSValue

/-- JS truthiness: `false`, `0`, `""`, `null`, `undefined` are falsy;
every array and object (even empty) is truthy. -/
def truthy : JSValue → Bool
  | .null => false
  | .undefined => false
  | .bool b => b
  | .num n => n != 0
  | .str s => s != ""
  | .arr _ => true
  | .obj _ => true

/-- Model of `Array.isArray`. -/
def isArr : JSValue → Bool
  | .arr _ => true
  | _ => false

/-- Property lookup in an object's field list (first match, as in a JS
object, which cannot hold duplicate keys). -/
def jsLookup : List (String × JSValue) → String → Option JSValue
  | [], _ => none
  | (k', v) :: rest, k => if k' = k then some v else jsLookup rest k

/-- JS property read `v[k]`: defined property value on objects, `undefined`
otherwise.  (Reads on `null`/`undefined` would throw in JS and are never
reached by the embedded code paths; index reads on arrays are not used by
the library, whose rows are row-objects.) -/
def getField (v : JSValue) (k : String) : JSValue :=
  match v with
  | .obj fs =>
    match jsLookup fs k with
    | some w => w
    | none => .undefined
  | _ => .undefined

/-- In-place overwrite of an existing property (used to express the aliasing
effect of `rows.sort()` on the array embedded in `this.data`). -/
def setField (v : JSValue) (k : String) (w : JSValue) : JSValue :=
  match v with
  | .obj fs => .obj (fs.map (fun kv => (kv.1, if kv.1 = k then w else kv.2)))
  | _ => v

end JSValue

open JSValue

/-- The source's `_normalizeData`: probe the envelope shapes in source order
(`d.results`, `results`, `d` as array, bare array) and fall back to `[]`. -/
def normalizeData (data : JSValue) : List JSValue :=
  if !data.truthy then []
  else
    let dres := (data.getField ("d")).getField ("results")
    if dres.truthy && dres.isArr then
      match dres with
      | .arr l => l
      | _ => []
    else
      let res := data.getField ("results")
      if res.truthy && res.isArr then
        match res with
        | .arr l => l
        | _ => []
      else
        let dv := data.getField ("d")
        if dv.truthy && dv.isArr then
          match dv with
          | .arr l => l
          | _ => []
        else
          match data with
          | .arr l => l
          | _ => []

/-- First-seen de-duplication: the insertion-order view of a JS `Set`
populated left to right. -/
def firstSeenAux (seen : List String) : List String → List String
  | [] => []
  | a :: t =>
    if seen.contains a then firstSeenAux seen t
    else a :: firstSeenAux (a :: seen) t

def firstSeen (l : List String) : List String :=
  firstSeenAux [] l

/-- Model of `Object.keys` as used on rows: key list of a row-object (non-objects
contribute no keys). -/
def jsKeys : JSValue → List String
  | .obj fs => firstSeen (fs.map Prod.fst)
  | _ => []

/-- The source's `h.startsWith("_")` test: the key's first character is an underscore. -/
def startsWithUnderscore (h : String) : Bool :=
  match h.data with
  | c :: _ => c = '_'
  | [] => false

/-- The source's `_generateHeaders`: union of row keys in first-seen order; then either
filter by the inclusion list (keeping its order) or drop `_`-prefixed keys. -/
def generateHeaders (includeHeaders : Option (List String)) (rows : List JSValue) : List String :=
  let headerArray := firstSeen (rows.flatMap jsKeys)
  match includeHeaders with
  | some incl => incl.filter (fun h => headerArray.contains h)
  | none => headerArray.filter (fun h => !(startsWithUnderscore h))

/-! ## The strict ISO-8601 pattern and `new Date` on a matching string

The source uses the anchored regex
written as caret, backslash-d-4, dash, backslash-d-2, dash, backslash-d-2,
letter T, three colon-separated 2-digit groups, an optional dot with one or
more digits, letter Z, dollar — i.e. exactly
`YYYY-MM-DDTHH:MM:SS(.fff...)Z`. -/

/-- Consume exactly `n` ASCII digits, returning the remaining characters. -/
def digitsN : Nat → List Char → Option (List Char)
  | 0, cs => some cs
  | _ + 1, [] => none
  | n + 1, c :: cs => if c.isDigit then digitsN n cs else none

/-- Consume exactly the character `c`. -/
def expectChar (c : Char) : List Char → Option (List Char)
  | [] => none
  | d :: cs => if d = c then some cs else none

/-- Zero or more digits followed by a final `Z`. -/
def digitsThenZ : List Char → Bool
  | [] => false
  | 'Z' :: cs => cs.isEmpty
  | c :: cs => c.isDigit && digitsThenZ cs

/-- The tail after the seconds: either `Z` alone, or `.`, one or more
digits, then `Z` (the optional fractional-seconds group of the regex). -/
def isoTail : List Char → Bool
  | ['Z'] => true
  | '.' :: c :: cs => c.isDigit && digitsThenZ cs
  | _ => false

/-- Strict match of the source's anchored ISO-8601 date-time regex. -/
def isoMatch (s : String) : Bool :=
  match some s.data >>= digitsN 4 >>= expectChar '-' >>= digitsN 2 >>=
      expectChar '-' >>= digitsN 2 >>= expectChar 'T' >>= digitsN 2 >>=
      expectChar ':' >>= digitsN 2 >>= expectChar ':' >>= digitsN 2 with
  | some rest => isoTail rest
  | none => false

/-- Numeric value of a digit run (the characters are digits by the time
this is applied). -/
def digitsVal (cs : List Char) : Nat :=
  cs.foldl (fun a c => a * 10 + (c.toNat - 48)) 0

def isLeapYear (y : Nat) : Bool :=
  (y % 4 == 0 && y % 100 != 0) || y % 400 == 0

def daysInMonth (y m : Nat) : Nat :=
  if m == 2 then (if isLeapYear y then 29 else 28)
  else if m == 4 || m == 6 || m == 9 || m == 11 then 30
  else 31

/-- Days from 0000-03-01-era civil reckoning (standard civil-from-days
companion algorithm); `y` is shifted by +400 by the caller so all
intermediate values stay in `Nat`. -/
def civilDays (y m d : Nat) : Nat :=
  let y' := if m ≤ 2 then y - 1 else y
  let era := y' / 400
  let yoe := y' % 400
  let mp := (m + 9) % 12
  let doy := (153 * mp + 2) / 5 + d - 1
  let doe := yoe * 365 + yoe / 4 - yoe / 100 + doy
  era * 146097 + doe

/-- Days between a civil date and 1970-01-01 (may be negative). -/
def epochDays (y m d : Nat) : Int :=
  (civilDays (y + 400) m d : Int) - 146097 - 719468

/-- Model of `new Date(s)` on a string that matched the strict ISO pattern:
the UTC millisecond timestamp, or `none` for an Invalid Date (out-of-range
calendar components).  Milliseconds take the first three fractional digits,
right-padded with zeros. -/
def jsDateOfISO (s : String) : Option Int :=
  let cs := s.data
  let y := digitsVal (cs.take 4)
  let mo := digitsVal ((cs.drop 5).take 2)
  let d := digitsVal ((cs.drop 8).take 2)
  let h := digitsVal ((cs.drop 11).take 2)
  let mi := digitsVal ((cs.drop 14).take 2)
  let sec := digitsVal ((cs.drop 17).take 2)
  let frac := ((cs.drop 20).takeWhile Char.isDigit).take 3
  let ms := digitsVal (frac ++ List.replicate (3 - frac.length) '0')
  if 1 ≤ mo && mo ≤ 12 && 1 ≤ d && d ≤ daysInMonth y mo &&
      h ≤ 23 && mi ≤ 59 && sec ≤ 59 then
    some (epochDays y mo d * 86400000 + h * 3600000 + mi * 60000 +
      sec * 1000 + ms)
  else
    none

/-! ## Cell formatting (`_formatCellValue`) -/

/-- The locale-dependent renderings of a `Date` are external to the model:
`dateTime`, `dateOnly`, `timeOnly` stand for `toLocaleString`,
`toLocaleDateString`, `toLocaleTimeString` on the parsed `Date` (argument
`none` is an Invalid Date). -/
structure LocaleFns where
  dateTime : Option Int → String
  dateOnly : Option Int → String
  timeOnly : Option Int → String

/-- Model of `Array.prototype.join` with separator `", "`. -/
def joinComma : List String → String
  | [] => ""
  | [s] => s
  | s :: rest => s ++ ", " ++ joinComma rest

mutual

/-- The source's `_formatCellValue`, branch for branch: `null` first; then the
date-formatting branch (gated on `formatDates` being set and the value
being a string strictly matching the ISO pattern); then arrays; then
objects; otherwise `String(value)`. -/
def formatCellValue (fd : Option (Bool × Bool)) (loc : LocaleFns) : JSValue → String
  | .null => ""
  | .str s =>
    match fd with
    | some (showDate, showTime) =>
      if isoMatch s then
        let date := jsDateOfISO s
        if showDate && showTime then loc.dateTime date
        else if showDate && !showTime then loc.dateOnly date
        else if !showDate && showTime then loc.timeOnly date
        else ""
      else s
    | none => s
  | .arr l => joinComma (formatCellList fd loc l)
  | .obj fs => joinComma (formatCellEntries fd loc fs)
  | .undefined => "undefined"
  | .bool b => if b then "true" else "false"
  | .num n => toString n

def formatCellList (fd : Option (Bool × Bool)) (loc : LocaleFns) : List JSValue → List String
  | [] => []
  | v :: vs => formatCellValue fd loc v :: formatCellList fd loc vs

def formatCellEntries (fd : Option (Bool × Bool)) (loc : LocaleFns) :
    List (String × JSValue) → List String
  | [] => []
  | (k, v) :: kvs =>
    (k ++ ": " ++ formatCellValue fd loc v) :: formatCellEntries fd loc kvs

end

/-! ## The sort comparator inside `render`

`rows.sort((a, b) => ...)` reads the sort field from both rows, converts a
value that is a string strictly matching the ISO pattern into a `Date`
(unconditionally — the conversion in the source is not gated on
`formatDates`), then compares with the JS `<` / `>` operators and returns
`-1`/`1`/`0`, with `order === "desc"` flipping the sign.  The JS abstract
relational comparison is modeled below: both operands go through
`ToPrimitive` (arrays stringify by `join(",")`, plain objects stringify to
`"[object Object]"`); two strings compare lexicographically; otherwise both
sides go through `ToNumber` and compare numerically, any NaN making both
`<` and `>` false.  Numeric strings are modeled for optionally signed
integer literals (and the empty/whitespace string, which converts to 0);
other numeric string forms are modeled as NaN, consistent with the integer
model of JS numbers. -/

/-- Sort-key values: a plain JS value, or the `Date` (UTC timestamp,
`none` = Invalid Date) produced from a strictly-ISO string. -/
inductive SortVal where
  | v (x : JSValue)
  | date (t : Option Int)
deriving DecidableEq

/-- The date conversion applied to each side before comparison. -/
def toComp (x : JSValue) : SortVal :=
  match x with
  | .str s => if isoMatch s then .date (jsDateOfISO s) else .v x
  | _ => .v x

/-- Primitive values after `ToPrimitive` (number hint): a string, or a
number where `none` stands for NaN. -/
inductive JSPrim where
  | str (s : String)
  | pnum (n : Option Int)
  | pbool (b : Bool)
  | pnull
  | pundefined
deriving DecidableEq

mutual

/-- Model of `Array.prototype.toString`, that is `join(",")`, with `null`/`undefined`
elements contributing the empty string. -/
def jsArrayToString : List JSValue → String
  | [] => ""
  | [x] => jsElemString x
  | x :: rest => jsElemString x ++ "," ++ jsArrayToString rest

/-- Model of `String(v)` for an array element. -/
def jsElemString : JSValue → String
  | .null => ""
  | .undefined => ""
  | .bool b => if b then "true" else "false"
  | .num n => toString n
  | .str s => s
  | .arr l => jsArrayToString l
  | .obj _ => "[object Object]"

end

/-- Model of `ToPrimitive` of a sort-key value under the number hint. -/
def toPrim : SortVal → JSPrim
  | .date t => .pnum t
  | .v .null => .pnull
  | .v .undefined => .pundefined
  | .v (.bool b) => .pbool b
  | .v (.num n) => .pnum (some n)
  | .v (.str s) => .str s
  | .v (.arr l) => .str (jsArrayToString l)
  | .v (.obj _) => .str ("[object Object]")

/-- Whitespace trim on a character list (JS `ToNumber` trims whitespace
from string operands). -/
def trimWs (cs : List Char) : List Char :=
  ((cs.dropWhile Char.isWhitespace).reverse.dropWhile Char.isWhitespace).reverse

/-- A non-empty all-digit run, as a number. -/
def digitsToNat? (cs : List Char) : Option Nat :=
  if cs.isEmpty then none
  else if cs.all Char.isDigit then some (digitsVal cs) else none

/-- Model of `ToNumber` on a string: empty/whitespace is `0`, an optionally signed
integer literal is its value, anything else is modeled as NaN (`none`). -/
def strToNum (s : String) : Option Int :=
  match trimWs s.data with
  | [] => some 0
  | '+' :: rest => (digitsToNat? rest).map (fun n => (n : Int))
  | '-' :: rest => (digitsToNat? rest).map (fun n => -(n : Int))
  | cs => (digitsToNat? cs).map (fun n => (n : Int))

/-- Model of `ToNumber` on a primitive (`none` = NaN). -/
def primToNum : JSPrim → Option Int
  | .pnum t => t
  | .pbool b => some (if b then 1 else 0)
  | .pnull => some 0
  | .pundefined => none
  | .str s => strToNum s

/-- Lexicographic `<` on character lists (JS string comparison by code
units; identical on the values exercised here). -/
def lexLt : List Char → List Char → Bool
  | [], [] => false
  | [], _ :: _ => true
  | _ :: _, [] => false
  | a :: s, b :: t => if a < b then true else if b < a then false else lexLt s t

/-- Numeric `<` where either NaN makes the comparison false. -/
def optLt (a b : Option Int) : Bool :=
  match a, b with
  | some x, some y => x < y
  | _, _ => false

/-- JS abstract relational comparison `a < b` on primitives. -/
def ltPrim (a b : JSPrim) : Bool :=
  match a, b with
  | .str s, .str t => lexLt s.data t.data
  | _, _ => optLt (primToNum a) (primToNum b)

/-- JS `a < b` on sort-key values. -/
def ltVal (a b : SortVal) : Bool :=
  ltPrim (toPrim a) (toPrim b)

/-- The comparator literal from `render`: `-1`/`1`/`0` with the sign
flipped when `order === "desc"` (any other order string behaves like
ascending, as in the source). -/
def cmpRows (field ord : String) (a b : JSValue) : Int :=
  if ltVal (toComp (a.getField field)) (toComp (b.getField field)) then
    (if ord == "desc" then 1 else -1)
  else if ltVal (toComp (b.getField field)) (toComp (a.getField field)) then
    (if ord == "desc" then -1 else 1)
  else 0

/-- The boolean "should `a` come no later than `b`" induced by the
comparator, as consumed by a stable sort. -/
def rowLe (field ord : String) (a b : JSValue) : Bool :=
  cmpRows field ord a b ≤ 0

/-- Model of `rows.sort(comparator)`: `Array.prototype.sort` is stable (ES2019),
modeled by the stable `List.mergeSort`. -/
def jsSortRows (field ord : String) (rows : List JSValue) : List JSValue :=
  rows.mergeSort (rowLe field ord)

/-! ## The `render` state machine

The DOM is modeled as a mapping from element id to element content.  The
content constructors record exactly what `render` can put into the
container: the "No Data Available" paragraph, or the built table — whose
header row exists iff the header list is nonempty (the source skips the
`thead` entirely for an empty header list) and whose body holds the
formatted cell strings row by row.  Styling assignments do not affect the
modeled semantics and are not represented. -/

/-- A DOM node as produced by `render` into the container. -/
inductive Node where
  | noData
  | table (headers : List String) (body : List (List String))
deriving DecidableEq

/-- The host document: element id to child-node list. -/
abbrev Doc := List (String × List Node)

/-- Model of the `container.innerHTML` assignment: replace the content of element `cid`. -/
def setContent (cid : String) (content : List Node) (doc : Doc) : Doc :=
  doc.map (fun e => if e.1 = cid then (e.1, content) else e)

/-- Model of `container.appendChild(n)`. -/
def appendNode (cid : String) (n : Node) (doc : Doc) : Doc :=
  doc.map (fun e => if e.1 = cid then (e.1, e.2 ++ [n]) else e)

/-- The `sortBy` constructor option (`{field, order}`). -/
structure SortSpec where
  field : String
  order : String
deriving DecidableEq

/-- The constructor options that affect the modeled semantics (the style
options are presentational only).  `none` models a `null`/absent option. -/
structure Config where
  containerId : String
  includeHeaders : Option (List String)
  formatDates : Option (Bool × Bool)
  sortBy : Option SortSpec

/-- The source's `this.sortBy && this.sortBy.field` check: present with a truthy (nonempty)
field name. -/
def sortActive (cfg : Config) : Bool :=
  match cfg.sortBy with
  | some sp => sp.field != ""
  | none => false

/-- The text of one body cell: `this._formatCellValue(row[header])`. -/
def cellFor (loc : LocaleFns) (cfg : Config) (row : JSValue) (header : String) : String :=
  formatCellValue cfg.formatDates loc (row.getField header)

/-- The sorted row sequence used by the rest of `render`. -/
def sortedRows (cfg : Config) (data : JSValue) : List JSValue :=
  let rows := normalizeData data
  match cfg.sortBy with
  | some sp => if sp.field != "" then jsSortRows sp.field sp.order rows else rows
  | none => rows

/-- The source's `_normalizeData` returns a reference into `this.data` on the three
envelope branches and on the bare-array branch, so the in-place
`rows.sort` reorders the array embedded in the raw input.  This function
reconstructs the post-sort value of `this.data`, mirroring the branch
structure of `_normalizeData` (the fallback branches return a fresh empty
array, whose sorting is invisible in `this.data`). -/
def replaceRows (data : JSValue) (rows' : List JSValue) : JSValue :=
  if !data.truthy then data
  else
    let dv := data.getField ("d")
    let dres := dv.getField ("results")
    if dres.truthy && dres.isArr then
      data.setField ("d") (dv.setField ("results") (.arr rows'))
    else
      let res := data.getField ("results")
      if res.truthy && res.isArr then
        data.setField ("results") (.arr rows')
      else if dv.truthy && dv.isArr then
        data.setField ("d") (.arr rows')
      else if data.isArr then .arr rows'
      else data

/-- The value of `this.data` after `render` returns. -/
def dataAfter (cfg : Config) (data : JSValue) : JSValue :=
  if sortActive cfg then replaceRows data (sortedRows cfg data) else data

/-- The outcome of one `render()` call: the updated document, the
`console.error` diagnostics emitted, and the post-call value of
`this.data`. -/
structure RenderResult where
  doc : Doc
  logs : List String
  data : JSValue
deriving DecidableEq

/-- The element-lookup failure diagnostic. -/
def containerErrMsg (cid : String) : String :=
  "Container with ID \"" ++ cid ++ "\" not found."

/-- The source's `render()`, step for step: locate the container (report and stop when
absent); normalize; on zero rows write the "No Data Available" paragraph
(the source does NOT return here); sort in place when `sortBy` is set with
a truthy field; clear the container; derive headers from the (sorted) row
sequence; build the header row iff headers exist and the body cell by cell
through `_formatCellValue`; append the table. -/
def render (loc : LocaleFns) (cfg : Config) (data : JSValue) (doc : Doc) : RenderResult :=
  match List.lookup cfg.containerId doc with
  | none => ⟨doc, [containerErrMsg cfg.containerId], data⟩
  | some _ =>
    let rows := normalizeData data
    let doc1 := if rows.length == 0 then setContent cfg.containerId [Node.noData] doc else doc
    let rows' := sortedRows cfg data
    let doc2 := setContent cfg.containerId [] doc1
    let headers := generateHeaders cfg.includeHeaders rows'
    let body := rows'.map (fun r => headers.map (fun h => cellFor loc cfg r h))
    let doc3 := appendNode cfg.containerId (Node.table headers body) doc2
    ⟨doc3, [], dataAfter cfg data⟩

/-- Modelled from the spec: the header sequence claimed by the control-flow
sentence "Renderer invokes Normalizer, then Header Deriver (on normalized
rows), then Sorter" — header derivation applied to the normalized rows
BEFORE any sorting.  Used only to compare against the header sequence the
code actually displays. -/
def headersBeforeSortSpec (cfg : Config) (data : JSValue) : List String :=
  generateHeaders cfg.includeHeaders (normalizeData data)

/-- A row-object (the spec's Row is a mapping from field names to cell
values; JS would throw on key enumeration or property access for
`null`/`undefined` rows, so row-quantified theorems restrict to objects). -/
def isRowObj : JSValue → Bool
  | .obj _ => true
  | _ => false

/-! ## Concrete fixtures used by witnesses and counterexamples -/

/-- Abstract locale renderers instantiated with distinct tags. -/
def loc0 : LocaleFns := ⟨fun _ => "LDT", fun _ => "LD", fun _ => "LT"⟩

def rA1 : JSValue := .obj [(("a"), .num 1)]
def rA2 : JSValue := .obj [(("a"), .num 2)]
def rEmptyRow : JSValue := .obj []
def r10 : JSValue := .obj [(("a"), .num 10)]
def r11 : JSValue := .obj [(("a"), .str ("11"))]
def r9 : JSValue := .obj [(("a"), .str ("9"))]
def rX2b : JSValue := .obj [(("x"), .num 2), (("b"), .num 1)]
def rX1a : JSValue := .obj [(("x"), .num 1), (("a"), .num 1)]

def doc0 : Doc := [(("c"), [])]
def cfgPlain : Config := ⟨("c"), none, none, none⟩
def cfgSortA : Config := ⟨("c"), none, none, some ⟨("a"), ("asc")⟩⟩
def cfgSortX : Config := ⟨("c"), none, none, some ⟨("x"), ("asc")⟩⟩

/-- Raw input for the header-order counterexample: two rows whose key sets
differ, in an order the sort reverses. -/
def dataC4 : JSValue := .arr [rX2b, rX1a]

/-- Raw input for the mutation counterexample: a bare row array the sort
reorders in place. -/
def dataC2 : JSValue := .arr [rA2, rA1]

/-- Rows producing a strict-comparison cycle through JS coercions:
`10 < "11"` numerically, `"11" < "9"` lexicographically, `"9" < 10`
numerically. -/
def rowsCycle : List JSValue := [r10, r11, r9]

/-! ## Helper lemmas -/

theorem mergeSort_pair {α} (le : α → α → Bool) (a b : α) :
    [a, b].mergeSort le = if le a b then [a, b] else [b, a] := by
  rw [List.mergeSort]
  simp [List.splitInTwo, List.splitAt_eq, List.cons_merge_cons]

theorem mergeSort_triple {α} (le : α → α → Bool) (a b c : α) :
    [a, b, c].mergeSort le =
      List.merge (if le a b then [a, b] else [b, a]) [c] le := by
  rw [List.mergeSort]
  simp [List.splitInTwo, List.splitAt_eq, mergeSort_pair]

theorem formatCellList_eq_map (fd : Option (Bool × Bool)) (loc : LocaleFns) :
    ∀ l : List JSValue, formatCellList fd loc l = l.map (formatCellValue fd loc)
  | [] => rfl
  | v :: vs => by rw [formatCellList, List.map_cons, formatCellList_eq_map fd loc vs]

theorem formatCellEntries_eq_map (fd : Option (Bool × Bool)) (loc : LocaleFns) :
    ∀ fs : List (String × JSValue),
      formatCellEntries fd loc fs =
        fs.map (fun kv => kv.1 ++ ": " ++ formatCellValue fd loc kv.2)
  | [] => rfl
  | (k, v) :: kvs => by
    rw [formatCellEntries, List.map_cons, formatCellEntries_eq_map fd loc kvs]

theorem optLt_none_right (a : Option Int) : optLt a none = false := by
  cases a <;> rfl

theorem optLt_none_left (a : Option Int) : optLt none a = false := rfl

theorem ltPrim_pundef_right (p : JSPrim) : ltPrim p (.pundefined) = false := by
  cases p <;> simp [ltPrim, primToNum, optLt_none_right]

theorem ltPrim_pundef_left (p : JSPrim) : ltPrim (.pundefined) p = false := by
  cases p <;> simp [ltPrim, primToNum, optLt_none_left]

theorem ltVal_undef_right (x : SortVal) : ltVal x (.v .undefined) = false :=
  ltPrim_pundef_right (toPrim x)

theorem ltVal_undef_left (x : SortVal) : ltVal (.v .undefined) x = false :=
  ltPrim_pundef_left (toPrim x)

theorem lexLt_asymm : ∀ s t : List Char, lexLt s t = true → lexLt t s = false
  | [], [] => by simp [lexLt]
  | [], _ :: _ => by simp [lexLt]
  | _ :: _, [] => by simp [lexLt]
  | a :: s, b :: t => by
    unfold lexLt
    intro h
    rcases lt_trichotomy a b with hab | hab | hab
    · simp [hab, not_lt_of_lt hab, lt_irrefl]
    · subst hab
      simp only [lt_irrefl, if_false] at h ⊢
      exact lexLt_asymm s t h
    · simp [hab, not_lt_of_lt hab] at h

theorem optLt_asymm (a b : Option Int) (h : optLt a b = true) : optLt b a = false := by
  cases a <;> cases b <;> simp [optLt] at h ⊢
  omega

theorem ltPrim_asymm (p q : JSPrim) (h : ltPrim p q = true) : ltPrim q p = false := by
  cases p <;> cases q <;>
    simp only [ltPrim] at h ⊢ <;>
    first
      | exact lexLt_asymm _ _ h
      | exact optLt_asymm _ _ h

theorem ltVal_asymm (a b : SortVal) (h : ltVal a b = true) : ltVal b a = false :=
  ltPrim_asymm (toPrim a) (toPrim b) h

/-- The comparator is sign-antisymmetric (JS `a > b` is `b < a` on pure
values, which the model makes definitional). -/
theorem cmpRows_neg (field ord : String) (a b : JSValue) :
    cmpRows field ord a b = -(cmpRows field ord b a) := by
  unfold cmpRows
  by_cases h1 : ltVal (toComp (a.getField field)) (toComp (b.getField field)) = true
  · have h2 := ltVal_asymm _ _ h1
    simp only [h1, h2, if_true, Bool.false_eq_true, if_false]
    cases hd : (ord == "desc") <;> simp
  · by_cases h2 : ltVal (toComp (b.getField field)) (toComp (a.getField field)) = true
    · simp only [h1, h2, if_true, Bool.false_eq_true, if_false]
      cases hd : (ord == "desc") <;> simp
    · simp [h1, h2]

/-- The `desc` comparator is the negation of the `asc` one. -/
theorem cmpRows_desc (field : String) (a b : JSValue) :
    cmpRows field ("desc") a b = -(cmpRows field ("asc") a b) := by
  unfold cmpRows
  by_cases h1 : ltVal (toComp (a.getField field)) (toComp (b.getField field)) = true <;>
    by_cases h2 : ltVal (toComp (b.getField field)) (toComp (a.getField field)) = true <;>
      simp [h1, h2]

/-- The relation `rowLe` is total. -/
theorem rowLe_total (field ord : String) (a b : JSValue) :
    rowLe field ord a b || rowLe field ord b a := by
  unfold rowLe
  rw [cmpRows_neg field ord a b]
  rcases lt_trichotomy (cmpRows field ord b a) 0 with h | h | h <;> simp [h] <;> omega

theorem setContent_setContent (cid : String) (a b : List Node) (doc : Doc) :
    setContent cid a (setContent cid b doc) = setContent cid a doc := by
  unfold setContent
  rw [List.map_map]
  apply List.map_congr_left
  intro e _
  by_cases h : e.1 = cid <;> simp [h]

theorem appendNode_setContent (cid : String) (n : Node) (c : List Node) (doc : Doc) :
    appendNode cid n (setContent cid c doc) = setContent cid (c ++ [n]) doc := by
  unfold appendNode setContent
  rw [List.map_map]
  apply List.map_congr_left
  intro e _
  by_cases h : e.1 = cid <;> simp [h]

theorem lookup_setContent (cid : String) (x : List Node) :
    ∀ doc : Doc, (List.lookup cid doc).isSome → List.lookup cid (setContent cid x doc) = some x
  | [] => by simp [setContent]
  | e :: rest => by
    intro h
    by_cases he : cid = e.1
    · subst he
      simp only [setContent, List.map_cons]
      simp [List.lookup]
    · have hb : ¬(e.1 = cid) := fun hh => he hh.symm
      have hb2 : (cid == e.1) = false := by
        simp only [beq_eq_false_iff_ne, ne_eq]
        exact he
      simp only [setContent, List.map_cons, if_neg hb] at h ⊢
      simp only [List.lookup, hb2] at h ⊢
      exact lookup_setContent cid x rest h

/-- One `render` call with the container present: the container content is
replaced by the built table (headers derived from the sorted rows; body
cell by cell through the formatter), no diagnostics are emitted, and
`this.data` holds its post-sort value. -/
theorem render_of_found (loc : LocaleFns) (cfg : Config) (data : JSValue) (doc : Doc)
    (c : List Node) (h : List.lookup cfg.containerId doc = some c) :
    render loc cfg data doc =
      ⟨setContent cfg.containerId
          [Node.table (generateHeaders cfg.includeHeaders (sortedRows cfg data))
            ((sortedRows cfg data).map (fun r =>
              (generateHeaders cfg.includeHeaders (sortedRows cfg data)).map
                (cellFor loc cfg r)))]
          doc,
        [], dataAfter cfg data⟩ := by
  unfold render
  rw [h]
  by_cases hz : ((normalizeData data).length == 0) = true <;>
    simp [hz, appendNode_setContent, setContent_setContent]

/-- With no rows, header derivation yields the empty header list for every
inclusion-list option. -/
theorem generateHeaders_nil (inc : Option (List String)) : generateHeaders inc [] = [] := by
  cases inc <;> simp [generateHeaders, firstSeen, firstSeenAux, List.contains]

theorem jsLookup_setF (k : String) (w : JSValue) :
    ∀ fs : List (String × JSValue),
      jsLookup (fs.map (fun kv => (kv.1, if kv.1 = k then w else kv.2))) k =
        (jsLookup fs k).map (fun _ => w)
  | [] => rfl
  | (k', v) :: rest => by
    simp only [List.map_cons, jsLookup]
    by_cases h : k' = k
    · simp [h]
    · rw [if_neg h, if_neg h]
      exact jsLookup_setF k w rest

theorem jsLookup_setF_ne (k k' : String) (w : JSValue) (hne : k' ≠ k) :
    ∀ fs : List (String × JSValue),
      jsLookup (fs.map (fun kv => (kv.1, if kv.1 = k then w else kv.2))) k' = jsLookup fs k'
  | [] => rfl
  | (a, v) :: rest => by
    simp only [List.map_cons, jsLookup]
    by_cases hk : a = k'
    · have h : ¬(a = k) := by rw [hk]; exact hne
      rw [if_pos hk, if_pos hk, if_neg h]
    · rw [if_neg hk, if_neg hk]
      exact jsLookup_setF_ne k k' w hne rest

theorem getField_setField_same (fs : List (String × JSValue)) (k : String) (w v : JSValue)
    (h : jsLookup fs k = some v) :
    (JSValue.setField (.obj fs) k w).getField k = w := by
  simp [JSValue.setField, JSValue.getField, jsLookup_setF, h]

theorem getField_setField_other (fs : List (String × JSValue)) (k k' : String) (w : JSValue)
    (hne : k' ≠ k) :
    (JSValue.setField (.obj fs) k w).getField k' = (JSValue.obj fs).getField k' := by
  simp [JSValue.setField, JSValue.getField, jsLookup_setF_ne k k' w hne]

/-- Re-normalizing `this.data` after the in-place sort recovers exactly the
sorted row sequence (on the fallback branches, where the sorted array was
fresh, both sides are empty). -/
theorem normalizeData_replaceRows (data : JSValue) (f ord : String) :
    normalizeData (replaceRows data (jsSortRows f ord (normalizeData data))) =
      jsSortRows f ord (normalizeData data) := by
  have hnil : jsSortRows f ord ([] : List JSValue) = [] := by simp [jsSortRows]
  by_cases ht : data.truthy = true
  case neg =>
    have ht' : data.truthy = false := by simpa using ht
    have hnorm : normalizeData data = [] := by unfold normalizeData; simp [ht']
    have hrepl : replaceRows data (jsSortRows f ord (normalizeData data)) = data := by
      unfold replaceRows; simp [ht']
    rw [hrepl, hnorm, hnil]
  case pos =>
    by_cases hc1 : ((((data.getField ("d")).getField ("results")).truthy &&
        ((data.getField ("d")).getField ("results")).isArr) = true)
    · obtain ⟨fs, rfl⟩ : ∃ fs, data = .obj fs := by
        cases data <;>
          first
            | exact ⟨_, rfl⟩
            | simp [JSValue.getField, JSValue.truthy] at hc1
      obtain ⟨dv, hd⟩ : ∃ dv, jsLookup fs ("d") = some dv := by
        cases hd : jsLookup fs ("d") with
        | none =>
          simp [JSValue.getField, hd, JSValue.truthy] at hc1
        | some dv => exact ⟨dv, rfl⟩
      have hdv : (JSValue.obj fs).getField ("d") = dv := by simp [JSValue.getField, hd]
      rw [hdv] at hc1
      obtain ⟨gs, rfl⟩ : ∃ gs, dv = .obj gs := by
        cases dv <;>
          first
            | exact ⟨_, rfl⟩
            | simp [JSValue.getField, JSValue.truthy] at hc1
      obtain ⟨r, hres⟩ : ∃ r, jsLookup gs ("results") = some r := by
        cases hres : jsLookup gs ("results") with
        | none => simp [JSValue.getField, hres, JSValue.truthy] at hc1
        | some r => exact ⟨r, rfl⟩
      have hdres : (JSValue.obj gs).getField ("results") = r := by
        simp [JSValue.getField, hres]
      rw [hdres] at hc1
      obtain ⟨l, rfl⟩ : ∃ l, r = .arr l := by
        cases r <;>
          first
            | exact ⟨_, rfl⟩
            | simp [JSValue.truthy, JSValue.isArr] at hc1
      have hnorm : normalizeData (.obj fs) = l := by
        unfold normalizeData
        simp [ht, hdv, hdres, JSValue.truthy, JSValue.isArr]
      rw [hnorm]
      have hrepl : replaceRows (.obj fs) (jsSortRows f ord l) =
          JSValue.setField (.obj fs) ("d")
            (JSValue.setField (.obj gs) ("results") (.arr (jsSortRows f ord l))) := by
        unfold replaceRows
        simp [ht, hdv, hdres, JSValue.truthy, JSValue.isArr]
      rw [hrepl]
      have h1 : (JSValue.setField (.obj fs) ("d")
          (JSValue.setField (.obj gs) ("results") (.arr (jsSortRows f ord l)))).getField ("d") =
          JSValue.setField (.obj gs) ("results") (.arr (jsSortRows f ord l)) :=
        getField_setField_same fs ("d") _ _ hd
      have h2 : (JSValue.setField (.obj gs) ("results")
          (.arr (jsSortRows f ord l))).getField ("results") = .arr (jsSortRows f ord l) :=
        getField_setField_same gs ("results") _ _ hres
      unfold normalizeData
      rw [h1, h2]
      simp [JSValue.setField, JSValue.truthy, JSValue.isArr]
    · by_cases hc2 : (((data.getField ("results")).truthy &&
          (data.getField ("results")).isArr) = true)
      · obtain ⟨fs, rfl⟩ : ∃ fs, data = .obj fs := by
          cases data <;>
            first
              | exact ⟨_, rfl⟩
              | simp [JSValue.getField, JSValue.truthy] at hc2
        obtain ⟨r, hres⟩ : ∃ r, jsLookup fs ("results") = some r := by
          cases hres : jsLookup fs ("results") with
          | none => simp [JSValue.getField, hres, JSValue.truthy] at hc2
          | some r => exact ⟨r, rfl⟩
        have hrv : (JSValue.obj fs).getField ("results") = r := by
          simp [JSValue.getField, hres]
        rw [hrv] at hc2
        obtain ⟨l, rfl⟩ : ∃ l, r = .arr l := by
          cases r <;>
            first
              | exact ⟨_, rfl⟩
              | simp [JSValue.truthy, JSValue.isArr] at hc2
        have hnorm : normalizeData (.obj fs) = l := by
          unfold normalizeData
          rw [hrv]
          simp only [ht, Bool.not_true, Bool.false_eq_true, if_false, hc1]
          simp [JSValue.truthy, JSValue.isArr]
        rw [hnorm]
        have hrepl : replaceRows (.obj fs) (jsSortRows f ord l) =
            JSValue.setField (.obj fs) ("results") (.arr (jsSortRows f ord l)) := by
          unfold replaceRows
          rw [hrv]
          simp only [ht, Bool.not_true, Bool.false_eq_true, if_false, hc1]
          simp [JSValue.truthy, JSValue.isArr]
        rw [hrepl]
        have h1 : (JSValue.setField (.obj fs) ("results")
            (.arr (jsSortRows f ord l))).getField ("results") = .arr (jsSortRows f ord l) :=
          getField_setField_same fs ("results") _ _ hres
        have h2 : (JSValue.setField (.obj fs) ("results")
            (.arr (jsSortRows f ord l))).getField ("d") = (JSValue.obj fs).getField ("d") :=
          getField_setField_other fs ("results") ("d") _ (by decide)
        have hc1' : ((((JSValue.obj fs).getField ("d")).getField ("results")).truthy &&
            (((JSValue.obj fs).getField ("d")).getField ("results")).isArr) = false := by
          simpa using hc1
        unfold normalizeData
        rw [h2, h1]
        simp only [hc1', Bool.false_eq_true, if_false]
        simp [JSValue.setField, JSValue.truthy, JSValue.isArr]
      · by_cases hc3 : (((data.getField ("d")).truthy && (data.getField ("d")).isArr) = true)
        · obtain ⟨fs, rfl⟩ : ∃ fs, data = .obj fs := by
            cases data <;>
              first
                | exact ⟨_, rfl⟩
                | simp [JSValue.getField, JSValue.truthy] at hc3
          obtain ⟨dv, hd⟩ : ∃ dv, jsLookup fs ("d") = some dv := by
            cases hd : jsLookup fs ("d") with
            | none => simp [JSValue.getField, hd, JSValue.truthy] at hc3
            | some dv => exact ⟨dv, rfl⟩
          have hdv : (JSValue.obj fs).getField ("d") = dv := by simp [JSValue.getField, hd]
          rw [hdv] at hc3
          obtain ⟨l, rfl⟩ : ∃ l, dv = .arr l := by
            cases dv <;>
              first
                | exact ⟨_, rfl⟩
                | simp [JSValue.truthy, JSValue.isArr] at hc3
          have hc1' : (((JSValue.arr l).getField ("results")).truthy &&
              ((JSValue.arr l).getField ("results")).isArr) = false := by
            simp [JSValue.getField, JSValue.truthy]
          have hc2' : (((JSValue.obj fs).getField ("results")).truthy &&
              ((JSValue.obj fs).getField ("results")).isArr) = false := by
            simpa using hc2
          have hnorm : normalizeData (.obj fs) = l := by
            unfold normalizeData
            rw [hdv]
            simp only [ht, Bool.not_true, Bool.false_eq_true, if_false, hc1', hc2']
            simp [JSValue.truthy, JSValue.isArr]
          rw [hnorm]
          have hrepl : replaceRows (.obj fs) (jsSortRows f ord l) =
              JSValue.setField (.obj fs) ("d") (.arr (jsSortRows f ord l)) := by
            unfold replaceRows
            rw [hdv]
            simp only [ht, Bool.not_true, Bool.false_eq_true, if_false, hc1', hc2']
            simp [JSValue.truthy, JSValue.isArr]
          rw [hrepl]
          have h1 : (JSValue.setField (.obj fs) ("d")
              (.arr (jsSortRows f ord l))).getField ("d") = .arr (jsSortRows f ord l) :=
            getField_setField_same fs ("d") _ _ hd
          have h2 : (JSValue.setField (.obj fs) ("d")
              (.arr (jsSortRows f ord l))).getField ("results") =
              (JSValue.obj fs).getField ("results") :=
            getField_setField_other fs ("d") ("results") _ (by decide)
          have htr : ((JSValue.obj fs).setField ("d")
              (.arr (jsSortRows f ord l))).truthy = true := by
            simp [JSValue.setField, JSValue.truthy]
          have c1f : (((JSValue.arr (jsSortRows f ord l)).getField ("results")).truthy &&
              ((JSValue.arr (jsSortRows f ord l)).getField ("results")).isArr) = false := rfl
          unfold normalizeData
          rw [h1, h2]
          simp only [htr, c1f, hc2', Bool.not_true, Bool.false_eq_true, if_false]
          simp [JSValue.truthy, JSValue.isArr]
        · by_cases ha : data.isArr = true
          · obtain ⟨l, rfl⟩ : ∃ l, data = .arr l := by
              cases data <;> simp [JSValue.isArr] at ha
              exact ⟨_, rfl⟩
            have hnorm : normalizeData (.arr l) = l := rfl
            rw [hnorm]
            rfl
          · have hc1' := (Bool.not_eq_true _).mp hc1
            have hc2' := (Bool.not_eq_true _).mp hc2
            have hc3' := (Bool.not_eq_true _).mp hc3
            have ha' := (Bool.not_eq_true _).mp ha
            have hnorm : normalizeData data = [] := by
              unfold normalizeData
              simp only [ht, Bool.not_true, Bool.false_eq_true, if_false, hc1', hc2', hc3']
              cases data <;> simp_all [JSValue.isArr]
            rw [hnorm, hnil]
            have hrepl : replaceRows data [] = data := by
              unfold replaceRows
              simp only [ht, Bool.not_true, Bool.false_eq_true, if_false, hc1', hc2', hc3', ha']
            rw [hrepl, hnorm]

/-! ## Claim theorems -/

/-- C5: the Normalizer returns the same row sequence for each of the four
envelope shapes (bare array, `{results: rs}`, `{d: rs}`,
`{d: {results: rs}}`), and the empty sequence for `null`, `undefined`,
`{}`, and any object with neither recognized field. -/
theorem c5_normalizer_shapes :
    (∀ rs : List JSValue, normalizeData (.arr rs) = rs) ∧
    (∀ rs : List JSValue, normalizeData (.obj [(("results"), .arr rs)]) = rs) ∧
    (∀ rs : List JSValue, normalizeData (.obj [(("d"), .arr rs)]) = rs) ∧
    (∀ rs : List JSValue, normalizeData (.obj [(("d"), .obj [(("results"), .arr rs)])]) = rs) ∧
    normalizeData .null = [] ∧
    normalizeData .undefined = [] ∧
    normalizeData (.obj []) = [] ∧
    (∀ fs : List (String × JSValue),
      jsLookup fs ("d") = none → jsLookup fs ("results") = none →
        normalizeData (.obj fs) = []) := by
  refine ⟨fun rs => rfl, fun rs => rfl, fun rs => rfl, fun rs => rfl, rfl, rfl, rfl, ?_⟩
  intro fs h1 h2
  simp [normalizeData, JSValue.getField, JSValue.truthy, h1, h2]

/-- Witness for C5 at a concrete object with neither recognized field. -/
theorem c5_normalizer_shapes_witness :
    jsLookup [(("x"), JSValue.num 1)] ("d") = none ∧
    jsLookup [(("x"), JSValue.num 1)] ("results") = none ∧
    normalizeData (.obj [(("x"), JSValue.num 1)]) = [] :=
  ⟨rfl, rfl, c5_normalizer_shapes.2.2.2.2.2.2.2 _ rfl rfl⟩

/-- C7: the Cell Formatter maps `null` to `""`, formats arrays by
recursively formatting each element and joining with `", "`, formats
non-array non-null objects entry by entry as `"key: value"` in key order
joined with `", "`, stringifies other primitives, and on
`{a: 1, b: [2, null, 3]}` yields exactly `"a: 1, b: 2, , 3"` (under every
date-formatting configuration, since no string value is involved). -/
theorem c7_formatter_rules :
    (∀ (fd : Option (Bool × Bool)) (loc : LocaleFns), formatCellValue fd loc .null = "") ∧
    (∀ (fd : Option (Bool × Bool)) (loc : LocaleFns) (l : List JSValue),
      formatCellValue fd loc (.arr l) = joinComma (l.map (formatCellValue fd loc))) ∧
    (∀ (fd : Option (Bool × Bool)) (loc : LocaleFns) (fs : List (String × JSValue)),
      (fs.map Prod.fst).Nodup →
        formatCellValue fd loc (.obj fs) =
          joinComma (fs.map (fun kv => kv.1 ++ ": " ++ formatCellValue fd loc kv.2))) ∧
    (∀ (fd : Option (Bool × Bool)) (loc : LocaleFns) (n : Int),
      formatCellValue fd loc (.num n) = toString n) ∧
    (∀ (fd : Option (Bool × Bool)) (loc : LocaleFns) (b : Bool),
      formatCellValue fd loc (.bool b) = if b then "true" else "false") ∧
    (∀ (fd : Option (Bool × Bool)) (loc : LocaleFns),
      formatCellValue fd loc
          (.obj [(("a"), .num 1), (("b"), .arr [.num 2, .null, .num 3])]) =
        "a: 1, b: 2, , 3") := by
  refine ⟨fun fd loc => rfl, ?_, ?_, fun fd loc n => rfl, fun fd loc b => rfl, ?_⟩
  · intro fd loc l
    show joinComma (formatCellList fd loc l) = _
    rw [formatCellList_eq_map]
  · intro fd loc fs _
    show joinComma (formatCellEntries fd loc fs) = _
    rw [formatCellEntries_eq_map]
  · intro fd loc
    rfl

/-- Witness for C7's object rule at a concrete duplicate-free object. -/
theorem c7_formatter_rules_witness :
    ([("a"), ("b")] : List String).Nodup ∧
    formatCellValue none loc0 (.obj [(("a"), .num 1), (("b"), .arr [.num 2, .null, .num 3])]) =
      "a: 1, b: 2, , 3" := by
  refine ⟨by decide, ?_⟩
  exact (c7_formatter_rules.2.2.2.2.2 none loc0)

/-- C8: a string strictly matching the ISO pattern is formatted through the
date-only locale renderer under `formatDates = [true, false]`, through the
date+time renderer under `[true, true]`, and to `""` under
`[false, false]`; with `formatDates = null` every string (ISO or not) is
returned unchanged; non-strictly-matching strings are plain strings under
every configuration. -/
theorem c8_iso_date_formatting :
    (∀ (loc : LocaleFns) (s : String), isoMatch s = true →
      formatCellValue (some (true, false)) loc (.str s) = loc.dateOnly (jsDateOfISO s) ∧
      formatCellValue (some (true, true)) loc (.str s) = loc.dateTime (jsDateOfISO s) ∧
      formatCellValue (some (false, false)) loc (.str s) = "") ∧
    (∀ (loc : LocaleFns) (s : String), formatCellValue none loc (.str s) = s) ∧
    (∀ (loc : LocaleFns) (s : String) (fd : Option (Bool × Bool)), isoMatch s = false →
      formatCellValue fd loc (.str s) = s) := by
  refine ⟨?_, fun loc s => rfl, ?_⟩
  · intro loc s h
    refine ⟨?_, ?_, ?_⟩ <;> simp [formatCellValue, h]
  · intro loc s fd h
    match fd with
    | none => rfl
    | some (sd, st) => simp [formatCellValue, h]

/-- Witness for C8 at the spec's example string and a near-miss string. -/
theorem c8_iso_date_formatting_witness :
    isoMatch ("2024-03-05T10:00:00Z") = true ∧
    formatCellValue (some (true, false)) loc0 (.str ("2024-03-05T10:00:00Z")) = "LD" ∧
    formatCellValue none loc0 (.str ("2024-03-05T10:00:00Z")) = "2024-03-05T10:00:00Z" ∧
    isoMatch ("2024-03-05T10:00:00") = false ∧
    formatCellValue (some (true, false)) loc0 (.str ("2024-03-05T10:00:00")) =
      "2024-03-05T10:00:00" := by
  refine ⟨by decide, ?_, ?_, by decide, ?_⟩
  · rw [(c8_iso_date_formatting.1 loc0 ("2024-03-05T10:00:00Z") (by decide)).1]
    rfl
  · exact c8_iso_date_formatting.2.1 loc0 ("2024-03-05T10:00:00Z")
  · exact c8_iso_date_formatting.2.2 loc0 ("2024-03-05T10:00:00") (some (true, false)) (by decide)

/-- C9: when the container id does not resolve, `render` returns with the
document unchanged, exactly one diagnostic on the console channel, and
`this.data` untouched (and, being a total function, without raising). -/
theorem c9_missing_container (loc : LocaleFns) (cfg : Config) (data : JSValue) (doc : Doc)
    (h : List.lookup cfg.containerId doc = none) :
    render loc cfg data doc = ⟨doc, [containerErrMsg cfg.containerId], data⟩ := by
  unfold render
  rw [h]

/-- Witness for C9 on an empty document. -/
theorem c9_missing_container_witness :
    List.lookup (("c") : String) ([] : Doc) = none ∧
    render loc0 cfgPlain (.arr []) [] = ⟨[], [containerErrMsg ("c")], .arr []⟩ :=
  ⟨rfl, c9_missing_container loc0 cfgPlain (.arr []) [] rfl⟩

/-- C10: `_formatCellValue` checks only for `null`, so the `undefined`
produced by reading a missing field falls through every branch to
`String(value)`, and the rendered cell text for a row lacking a displayed
header is the string `"undefined"` (uniformly in the formatting
configuration). -/
theorem c10_undefined_cells :
    (∀ (fd : Option (Bool × Bool)) (loc : LocaleFns),
      formatCellValue fd loc .undefined = "undefined") ∧
    (∀ (loc : LocaleFns) (cfg : Config) (r : JSValue) (h : String),
      isRowObj r = true → r.getField h = .undefined → cellFor loc cfg r h = "undefined") := by
  refine ⟨fun fd loc => rfl, ?_⟩
  intro loc cfg r h _ hget
  show formatCellValue cfg.formatDates loc (r.getField h) = _
  rw [hget]
  simp [formatCellValue]

/-- Witness for C10 at a row lacking the displayed field. -/
theorem c10_undefined_cells_witness :
    isRowObj rEmptyRow = true ∧
    rEmptyRow.getField ("b") = .undefined ∧
    cellFor loc0 cfgPlain rEmptyRow ("b") = "undefined" :=
  ⟨rfl, rfl, c10_undefined_cells.2 loc0 cfgPlain rEmptyRow ("b") rfl rfl⟩

/-- C1 (the empty-rows branch is NOT terminal): after writing the
"No Data Available" paragraph the source keeps going, clears the container
and appends the built table, so a render with zero normalized rows leaves
the container holding exactly an empty table shell (no header row, empty
body) and no "no data" indicator.  Claim C1 states the placeholder is
terminal; the code's own placeholder write makes the missing early return
a slip rather than intent. -/
theorem c1_empty_rows_shell_mounted :
    (render loc0 cfgPlain (.arr []) doc0).doc = [(("c"), [Node.table [] []])] ∧
    (render loc0 cfgPlain (.arr []) doc0).logs = [] := by
  constructor <;> rfl

/-- Counterexample to C3 as stated: under `order = "asc"` the input
`[{a: 1}, {}]` sorts to itself — the row missing the sort field stays
AFTER the row having it, so missing-field rows are not placed before all
rows having the field. -/
theorem c3_counterexample :
    rEmptyRow.getField ("a") = .undefined ∧
    rA1.getField ("a") = JSValue.num 1 ∧
    jsSortRows ("a") ("asc") [rA1, rEmptyRow] = [rA1, rEmptyRow] := by
  refine ⟨rfl, rfl, ?_⟩
  rw [jsSortRows, mergeSort_pair]
  decide

/-- C3 (amended): a row missing the sort field compares equal (comparator
`0`) to every row in both directions and in both orders, so the stable
sort leaves missing-field rows in their relative input positions instead
of moving them to one side; in particular a sequence consisting only of
missing-field rows is returned unchanged. -/
theorem c3_missing_field_policy (field ord : String) :
    (∀ r r' : JSValue, isRowObj r = true → isRowObj r' = true → r.getField field = .undefined →
      cmpRows field ord r r' = 0 ∧ cmpRows field ord r' r = 0) ∧
    (∀ l : List JSValue, (∀ r ∈ l, isRowObj r = true) → (∀ r ∈ l, r.getField field = .undefined) →
      jsSortRows field ord l = l) := by
  have key : ∀ r r' : JSValue, r.getField field = .undefined →
      cmpRows field ord r r' = 0 ∧ cmpRows field ord r' r = 0 := by
    intro r r' h
    unfold cmpRows
    rw [h]
    simp [toComp, ltVal_undef_left, ltVal_undef_right]
  refine ⟨fun r r' _ _ h => key r r' h, ?_⟩
  intro l _ hl
  apply List.mergeSort_of_sorted
  apply List.pairwise_of_forall_mem_list
  intro a ha b _
  unfold rowLe
  rw [(key a b (hl a ha)).1]
  rfl

/-- Witness for C3 (amended) at concrete rows. -/
theorem c3_missing_field_policy_witness :
    (rEmptyRow.getField ("a") = .undefined ∧
      cmpRows ("a") ("asc") rEmptyRow rA1 = 0 ∧ cmpRows ("a") ("asc") rA1 rEmptyRow = 0) ∧
    jsSortRows ("a") ("desc") [rEmptyRow, rEmptyRow] = [rEmptyRow, rEmptyRow] := by
  constructor
  · exact ⟨rfl, (c3_missing_field_policy ("a") ("asc")).1 rEmptyRow rA1 rfl rfl rfl⟩
  · exact (c3_missing_field_policy ("a") ("desc")).2 _ (by decide) (by decide)

/-- Sorting the C4 fixture swaps its two rows. -/
theorem sortedRows_dataC4 : sortedRows cfgSortX dataC4 = [rX1a, rX2b] := by
  show jsSortRows ("x") ("asc") [rX2b, rX1a] = [rX1a, rX2b]
  rw [jsSortRows, mergeSort_pair]
  decide

/-- Counterexample to C4 as stated: on `[{x:2, b:1}, {x:1, a:1}]` with
`sortBy {field: "x", order: "asc"}`, the displayed columns are
`[x, a, b]` — first-seen order over the SORTED rows — while header
derivation on the normalized (pre-sort) sequence, as the claim requires,
gives `[x, b, a]`. -/
theorem c4_counterexample :
    List.lookup ("c") ((render loc0 cfgSortX dataC4 doc0).doc) =
      some [Node.table ([("x"), ("a"), ("b")])
        ([[("1"), ("1"), ("undefined")], [("2"), ("undefined"), ("1")]])] ∧
    headersBeforeSortSpec cfgSortX dataC4 = [("x"), ("b"), ("a")] ∧
    ([("x"), ("a"), ("b")] : List String) ≠ [("x"), ("b"), ("a")] := by
  refine ⟨?_, by decide, by decide⟩
  rw [show ("c" : String) = cfgSortX.containerId from rfl]
  rw [render_of_found loc0 cfgSortX dataC4 doc0 [] rfl]
  rw [lookup_setContent _ _ doc0 (by rfl)]
  rw [sortedRows_dataC4]
  decide

/-- C4 (amended): header derivation is applied AFTER sorting, to the
sorted row sequence; with no inclusion list the displayed columns are the
union of keys across the sorted rows in first-seen order with
`_`-prefixed keys excluded, and with an inclusion list they are exactly
the inclusion list filtered to keys occurring in that union, in the
caller's order, absent keys silently dropped. -/
theorem c4_headers_from_sorted_rows (loc : LocaleFns) (cfg : Config) (data : JSValue)
    (doc : Doc) (c : List Node) (hc : List.lookup cfg.containerId doc = some c)
    (_hrows : ∀ r ∈ normalizeData data, isRowObj r = true) :
    List.lookup cfg.containerId ((render loc cfg data doc).doc) =
      some [Node.table
        (match cfg.includeHeaders with
          | some incl =>
            incl.filter (fun h => (firstSeen ((sortedRows cfg data).flatMap jsKeys)).contains h)
          | none =>
            (firstSeen ((sortedRows cfg data).flatMap jsKeys)).filter
              (fun h => !(startsWithUnderscore h)))
        ((sortedRows cfg data).map (fun r =>
          (generateHeaders cfg.includeHeaders (sortedRows cfg data)).map (cellFor loc cfg r)))] := by
  rw [render_of_found loc cfg data doc c hc]
  rw [lookup_setContent _ _ doc (by rw [hc]; rfl)]
  rfl

/-- The descending comparator accepts `a` before `b` exactly when the
ascending one accepts `b` before `a`. -/
theorem rowLe_desc_swap (field : String) (a b : JSValue) :
    rowLe field ("desc") a b = rowLe field ("asc") b a := by
  unfold rowLe
  rw [cmpRows_desc field a b, cmpRows_neg field ("asc") a b]
  simp

theorem dataAfter_of_inactive (cfg : Config) (data : JSValue) (hs : sortActive cfg = false) :
    dataAfter cfg data = data := by
  unfold dataAfter
  simp [hs]

theorem sortedRows_of_inactive (cfg : Config) (data : JSValue) (hs : sortActive cfg = false) :
    sortedRows cfg data = normalizeData data := by
  unfold sortActive at hs
  unfold sortedRows
  cases hcs : cfg.sortBy with
  | none => rfl
  | some sp =>
    rw [hcs] at hs
    simp only [] at hs
    simp at hs
    simp [hs]

theorem sortedRows_of_active (cfg : Config) (data : JSValue) (sp : SortSpec)
    (hcs : cfg.sortBy = some sp) (hf : (sp.field != "") = true) :
    sortedRows cfg data = jsSortRows sp.field sp.order (normalizeData data) := by
  unfold sortedRows
  rw [hcs]
  simp [hf]

/-- The sorted row sequence is a permutation of the normalized one. -/
theorem sortedRows_perm (cfg : Config) (data : JSValue) :
    List.Perm (sortedRows cfg data) (normalizeData data) := by
  unfold sortedRows
  cases cfg.sortBy with
  | none => exact List.Perm.refl _
  | some sp =>
    by_cases hf : (sp.field != "") = true
    · simp only [hf, if_true]
      exact List.mergeSort_perm _ _
    · simp only [hf]
      simp only [Bool.not_eq_true] at hf
      simp [hf]

/-- Re-normalizing `this.data` after `render` yields exactly the row
sequence the table was built from. -/
theorem normalizeData_dataAfter (cfg : Config) (data : JSValue) :
    normalizeData (dataAfter cfg data) = sortedRows cfg data := by
  by_cases hs : sortActive cfg = true
  · obtain ⟨sp, hcs⟩ : ∃ sp, cfg.sortBy = some sp := by
      unfold sortActive at hs
      cases hcs : cfg.sortBy with
      | none => rw [hcs] at hs; exact absurd hs (by simp)
      | some sp => exact ⟨sp, rfl⟩
    have hf : (sp.field != "") = true := by
      unfold sortActive at hs
      rw [hcs] at hs
      exact hs
    unfold dataAfter
    rw [if_pos hs, sortedRows_of_active cfg data sp hcs hf, normalizeData_replaceRows]
  · have hs' : sortActive cfg = false := by simpa using hs
    rw [dataAfter_of_inactive cfg data hs', sortedRows_of_inactive cfg data hs']

/-- Counterexample to C2 as stated: rendering `[{a:2}, {a:1}]` with
`sortBy {field: "a", order: "asc"}` reorders the caller's array in place —
after `render` the raw input holds the same rows in a different order. -/
theorem c2_counterexample :
    (render loc0 cfgSortA dataC2 doc0).data = .arr [rA1, rA2] ∧
    (render loc0 cfgSortA dataC2 doc0).data ≠ dataC2 := by
  have hd : (render loc0 cfgSortA dataC2 doc0).data = .arr [rA1, rA2] := by
    show dataAfter cfgSortA dataC2 = _
    show replaceRows dataC2 (sortedRows cfgSortA dataC2) = _
    have hs : sortedRows cfgSortA dataC2 = [rA1, rA2] := by
      show jsSortRows ("a") ("asc") [rA2, rA1] = [rA1, rA2]
      rw [jsSortRows, mergeSort_pair]
      decide
    rw [hs]
    rfl
  refine ⟨hd, ?_⟩
  rw [hd]
  decide

/-- C2 (amended): when no sort is configured (absent `sortBy` or falsy
field) `render` leaves the raw input untouched; when a sort is active the
embedded row array is reordered in place, so re-normalizing the post-render
input yields exactly the sorted row sequence — a permutation of the
original rows, the row objects themselves unreplaced. -/
theorem c2_raw_input_mutation (loc : LocaleFns) (cfg : Config) (data : JSValue) (doc : Doc)
    (c : List Node) (hc : List.lookup cfg.containerId doc = some c)
    (_hrows : ∀ r ∈ normalizeData data, isRowObj r = true) :
    (sortActive cfg = false → (render loc cfg data doc).data = data) ∧
    normalizeData ((render loc cfg data doc).data) = sortedRows cfg data ∧
    List.Perm (normalizeData ((render loc cfg data doc).data)) (normalizeData data) := by
  have hdata : (render loc cfg data doc).data = dataAfter cfg data := by
    rw [render_of_found loc cfg data doc c hc]
  refine ⟨?_, ?_, ?_⟩
  · intro h
    rw [hdata, dataAfter_of_inactive cfg data h]
  · rw [hdata, normalizeData_dataAfter]
  · rw [hdata, normalizeData_dataAfter]
    exact sortedRows_perm cfg data

/-- Witness for C2 (amended): an inactive-sort render leaves the input
unchanged, an active-sort render leaves exactly the sorted rows embedded. -/
theorem c2_raw_input_mutation_witness :
    List.lookup ("c") doc0 = some ([] : List Node) ∧
    sortActive cfgPlain = false ∧
    (render loc0 cfgPlain dataC2 doc0).data = dataC2 ∧
    normalizeData ((render loc0 cfgSortA dataC2 doc0).data) = sortedRows cfgSortA dataC2 := by
  have h1 := c2_raw_input_mutation loc0 cfgPlain dataC2 doc0 [] rfl (by decide)
  have h2 := c2_raw_input_mutation loc0 cfgSortA dataC2 doc0 [] rfl (by decide)
  exact ⟨rfl, rfl, h1.1 rfl, h2.2.1⟩

/-- Witness for C4 (amended) at the concrete fixture. -/
theorem c4_headers_from_sorted_rows_witness :
    List.lookup ("c") doc0 = some ([] : List Node) ∧
    List.lookup ("c") ((render loc0 cfgSortX dataC4 doc0).doc) =
      some [Node.table ([("x"), ("a"), ("b")])
        ([[("1"), ("1"), ("undefined")], [("2"), ("undefined"), ("1")]])] := by
  refine ⟨rfl, ?_⟩
  rw [show ("c" : String) = cfgSortX.containerId from rfl]
  rw [c4_headers_from_sorted_rows loc0 cfgSortX dataC4 doc0 [] rfl (by decide)]
  rw [sortedRows_dataC4]
  decide

/-- Counterexample to C6 as stated, on rows whose sort-field values are
pairwise distinct but compare cyclically through JS coercions
(`10 < "11"` numerically, `"11" < "9"` lexicographically, `"9" < 10`
numerically): sorting an already-sorted sequence changes it again, and the
descending sort is not the reverse of the ascending sort. -/
theorem c6_counterexample :
    rowsCycle = [r10, r11, r9] ∧
    r10.getField ("a") = .num 10 ∧
    r11.getField ("a") = .str ("11") ∧
    r9.getField ("a") = .str ("9") ∧
    (JSValue.num 10 : JSValue) ≠ .str ("11") ∧
    (JSValue.num 10 : JSValue) ≠ .str ("9") ∧
    (JSValue.str ("11") : JSValue) ≠ .str ("9") ∧
    jsSortRows ("a") ("asc") (jsSortRows ("a") ("asc") rowsCycle) ≠
      jsSortRows ("a") ("asc") rowsCycle ∧
    jsSortRows ("a") ("desc") rowsCycle ≠ (jsSortRows ("a") ("asc") rowsCycle).reverse := by
  have hasc : jsSortRows ("a") ("asc") rowsCycle = [r9, r10, r11] := by
    show List.mergeSort [r10, r11, r9] (rowLe ("a") ("asc")) = [r9, r10, r11]
    rw [mergeSort_triple, if_pos (by decide)]
    simp only [List.cons_merge_cons]
    rw [if_neg (by decide), List.merge_right]
  have hascasc : jsSortRows ("a") ("asc") [r9, r10, r11] = [r11, r9, r10] := by
    show List.mergeSort [r9, r10, r11] (rowLe ("a") ("asc")) = [r11, r9, r10]
    rw [mergeSort_triple, if_pos (by decide)]
    simp only [List.cons_merge_cons]
    rw [if_neg (by decide), List.merge_right]
  have hdesc : jsSortRows ("a") ("desc") rowsCycle = [r9, r11, r10] := by
    show List.mergeSort [r10, r11, r9] (rowLe ("a") ("desc")) = [r9, r11, r10]
    rw [mergeSort_triple, if_neg (by decide)]
    simp only [List.cons_merge_cons]
    rw [if_neg (by decide), List.merge_right]
  refine ⟨rfl, rfl, rfl, rfl, by decide, by decide, by decide, ?_, ?_⟩
  · rw [hasc, hascasc]
    decide
  · rw [hdesc, hasc]
    decide

/-- C6 (amended): the sort is stable — breaking comparator ties by input
position (the `enumLE` tie-break) leaves the output unchanged; a sequence
already pairwise-accepted by the comparator is returned unchanged; and the
descending sort is the exact reverse of the ascending sort whenever the
ascending comparator is strictly transitive on the rows and compares no
two distinct rows equal.  (On mixed-type sort keys the comparator need not
be transitive, and then — as the counterexample shows — the last two
properties can fail.) -/
theorem c6_sorter_properties (field ord : String) (l : List JSValue)
    (_hrows : ∀ r ∈ l, isRowObj r = true) :
    (jsSortRows field ord l =
      (List.mergeSort l.enum (List.enumLE (rowLe field ord))).map Prod.snd) ∧
    (l.Pairwise (fun a b => rowLe field ord a b = true) → jsSortRows field ord l = l) ∧
    ((∀ a ∈ l, ∀ b ∈ l, ∀ c ∈ l,
        cmpRows field ("asc") a b < 0 → cmpRows field ("asc") b c < 0 →
          cmpRows field ("asc") a c < 0) →
      (∀ a ∈ l, ∀ b ∈ l, cmpRows field ("asc") a b = 0 → a = b) →
      jsSortRows field ("desc") l = (jsSortRows field ("asc") l).reverse) := by
  refine ⟨(List.mergeSort_enum).symm, ?_, ?_⟩
  · intro hp
    exact List.mergeSort_of_sorted hp
  · intro htrans hdist
    have transA : ∀ a b c : {x // x ∈ l},
        rowLe field ("asc") a.1 b.1 = true → rowLe field ("asc") b.1 c.1 = true →
          rowLe field ("asc") a.1 c.1 = true := by
      intro a b c hab hbc
      simp only [rowLe, decide_eq_true_eq] at hab hbc ⊢
      rcases lt_or_eq_of_le hab with h1 | h1
      · rcases lt_or_eq_of_le hbc with h2 | h2
        · exact le_of_lt (htrans a.1 a.2 b.1 b.2 c.1 c.2 h1 h2)
        · have e : b.1 = c.1 := hdist b.1 b.2 c.1 c.2 h2
          rw [← e]
          exact hab
      · have e : a.1 = b.1 := hdist a.1 a.2 b.1 b.2 h1
        rw [e]
        exact hbc
    have totalA : ∀ a b : {x // x ∈ l},
        (rowLe field ("asc") a.1 b.1 || rowLe field ("asc") b.1 a.1) = true :=
      fun a b => rowLe_total field ("asc") a.1 b.1
    have transD : ∀ a b c : {x // x ∈ l},
        rowLe field ("desc") a.1 b.1 = true → rowLe field ("desc") b.1 c.1 = true →
          rowLe field ("desc") a.1 c.1 = true := by
      intro a b c hab hbc
      rw [rowLe_desc_swap] at hab hbc ⊢
      exact transA c b a hbc hab
    have totalD : ∀ a b : {x // x ∈ l},
        (rowLe field ("desc") a.1 b.1 || rowLe field ("desc") b.1 a.1) = true := by
      intro a b
      rw [rowLe_desc_swap, rowLe_desc_swap]
      exact rowLe_total field ("asc") b.1 a.1
    have sortedA := List.sorted_mergeSort transA totalA l.attach
    have sortedD := List.sorted_mergeSort transD totalD l.attach
    have baseA : (l.attach.map Subtype.val).mergeSort (rowLe field ("asc")) =
        List.mergeSort l (rowLe field ("asc")) := by
      rw [List.attach_map_subtype_val]
    have baseD : (l.attach.map Subtype.val).mergeSort (rowLe field ("desc")) =
        List.mergeSort l (rowLe field ("desc")) := by
      rw [List.attach_map_subtype_val]
    have hmapA : (List.mergeSort l.attach
          (fun a b : {x // x ∈ l} => rowLe field ("asc") a.1 b.1)).map Subtype.val =
        List.mergeSort l (rowLe field ("asc")) := by
      rw [← baseA]
      exact List.map_mergeSort (fun a _ b _ => rfl)
    have hmapD : (List.mergeSort l.attach
          (fun a b : {x // x ∈ l} => rowLe field ("desc") a.1 b.1)).map Subtype.val =
        List.mergeSort l (rowLe field ("desc")) := by
      rw [← baseD]
      exact List.map_mergeSort (fun a _ b _ => rfl)
    haveI : IsAntisymm {x // x ∈ l}
        (fun a b => rowLe field ("desc") a.1 b.1 = true) := by
      constructor
      intro a b hab hba
      rw [rowLe_desc_swap] at hab hba
      simp only [rowLe, decide_eq_true_eq] at hab hba
      have hneg := cmpRows_neg field ("asc") a.1 b.1
      have h0 : cmpRows field ("asc") a.1 b.1 = 0 := by omega
      exact Subtype.ext (hdist a.1 a.2 b.1 b.2 h0)
    have key : List.mergeSort l.attach
          (fun a b : {x // x ∈ l} => rowLe field ("desc") a.1 b.1) =
        (List.mergeSort l.attach
          (fun a b : {x // x ∈ l} => rowLe field ("asc") a.1 b.1)).reverse := by
      refine List.eq_of_perm_of_sorted
        (((List.mergeSort_perm _ _).trans
          (List.mergeSort_perm _ _).symm).trans (List.reverse_perm _).symm)
        sortedD ?_
      refine List.pairwise_reverse.mpr ?_
      refine sortedA.imp ?_
      intro a b h
      rw [rowLe_desc_swap]
      exact h
    have final := congrArg (List.map Subtype.val) key
    rw [hmapD, List.map_reverse, hmapA] at final
    exact final

/-- Witness for C6 (amended) on a strictly ordered two-row sequence. -/
theorem c6_sorter_properties_witness :
    (jsSortRows ("a") ("asc") [rA2, rA1] =
      (List.mergeSort [rA2, rA1].enum (List.enumLE (rowLe ("a") ("asc")))).map Prod.snd) ∧
    jsSortRows ("a") ("asc") [rA1, rA2] = [rA1, rA2] ∧
    jsSortRows ("a") ("desc") [rA2, rA1] = (jsSortRows ("a") ("asc") [rA2, rA1]).reverse := by
  have h1 := c6_sorter_properties ("a") ("asc") [rA2, rA1] (by decide)
  have h2 := c6_sorter_properties ("a") ("asc") [rA1, rA2] (by decide)
  exact ⟨h1.1, h2.2.1 (by decide), h1.2.2 (by decide) (by decide)⟩

end SPTable
